import Mathlib

/-!
Verification of the migration-ordering and application protocol of
`mongo_migrator/migrator.py` (class `MigrationManager`).

The embedding models the `migrations` collection of the database as a list of
documents in insertion order (`Ledger`), with `find_one` returning the first
matching document, `insert_one` appending, and `delete_one` removing the first
match.  A loaded migration unit is abstracted by the data `apply_migration` /
`rollback_migration` actually use after `importlib` loading: the class name
(`migration.__class__.__name__`) and whether the unit's `migrate` /
`rollback_migration` coroutines raise (carrying the raised message, so that
propagation "unchanged" is expressible).  Integer parsing follows Python's
`int(x.split("_")[0])`: the text before the first underscore, an optional
sign followed by decimal digits.
-/

/-- A document of the `migrations` collection: inserted by
`apply_migration` as `{"name": ..., "order": ..., "applied": True}`. -/
structure LedgerRecord where
  name : String
  order : Int
  applied : Bool
deriving DecidableEq, Repr

/-- The `migrations` collection, in insertion order. -/
abbrev Ledger := List LedgerRecord

/-- `find_one({"order": o})`: first document with the given order, if any. -/
def findOneByOrder (l : Ledger) (o : Int) : Option LedgerRecord :=
  l.find? (fun r => r.order = o)

/-- `find_one({"name": n})`: first document with the given name, if any. -/
def findOneByName (l : Ledger) (n : String) : Option LedgerRecord :=
  l.find? (fun r => r.name = n)

/-- `delete_one({"name": n})`: removes at most one (the first) matching
document; removing from a ledger with no match is a no-op. -/
def deleteOneByName (l : Ledger) (n : String) : Ledger :=
  l.eraseP (fun r => r.name = n)

/-- A migration unit as seen by the manager after dynamic loading:
`name` is `migration.__class__.__name__` of the class bound to the module
attribute `Migration`; `migrateErr` (resp. `revertErr`) is `some msg` when the
unit's `migrate(db)` (resp. `rollback_migration(db)`) coroutine raises an
exception with that message, and `none` when it succeeds. -/
structure MigrationUnit where
  name : String
  migrateErr : Option String
  revertErr : Option String
deriving DecidableEq, Repr

/-- The exceptions the manager can raise or propagate:
`fileNotFound` for the missing migrations directory (`FileNotFoundError`),
`valueError` for `int()` failing on a non-numeric filename piece,
`prerequisite` for "Previous migration with order k has not been applied.",
`operation` for an exception propagated out of a unit's own code. -/
inductive MigErr where
  | fileNotFound (path : String)
  | valueError (s : String)
  | prerequisite (order : Int)
  | operation (msg : String)
deriving DecidableEq, Repr

/-- `x.split("_")[0]`: the text before the first underscore (the whole
string when there is none).  Computed over the code points, as Python does. -/
def beforeUnderscore (s : String) : String :=
  (s.toList.takeWhile (fun c => c ≠ '_')).asString

/-- Value of a nonempty decimal digit string. -/
def digitsToNat (cs : List Char) : Nat :=
  cs.foldl (fun acc c => 10 * acc + (c.toNat - '0'.toNat)) 0

/-- Python's `int(s)` on the strings at hand: an optional sign followed by
one or more decimal digits; `none` models `ValueError`. -/
def pyInt (s : String) : Option Int :=
  match s.toList with
  | '-' :: rest =>
    if rest ≠ [] ∧ rest.all Char.isDigit then some (-(digitsToNat rest : Int)) else none
  | '+' :: rest =>
    if rest ≠ [] ∧ rest.all Char.isDigit then some ((digitsToNat rest : Int)) else none
  | cs =>
    if cs ≠ [] ∧ cs.all Char.isDigit then some ((digitsToNat cs : Int)) else none

/-- `int(migration_module_name.split("_")[0])` as an option. -/
def orderKey (s : String) : Option Int :=
  pyInt (beforeUnderscore s)

/-- Outcome of one `apply_migration` call: the collection afterwards, how many
times the unit's `migrate(db)` was awaited, and the exception raised, if any. -/
structure ApplyResult where
  ledger : Ledger
  migrateCalls : Nat
  error : Option MigErr
deriving DecidableEq, Repr

/-- `MigrationManager.apply_migration` (migrator.py lines 72-107), after the
module has been loaded and instantiated.  Order is parsed from
`migration_module_name`; if the order is above 1 the predecessor's ledger
document is required first; an already-recorded name short-circuits; otherwise
`migrate(db)` runs and, on success only, a document is inserted. -/
def apply_migration (ledger : Ledger) (migration_module_name : String)
    (unit : MigrationUnit) : ApplyResult :=
  match orderKey migration_module_name with
  | none => ⟨ledger, 0, some (.valueError (beforeUnderscore migration_module_name))⟩
  | some migration_order =>
    if migration_order > 1 ∧ (findOneByOrder ledger (migration_order - 1)).isNone then
      ⟨ledger, 0, some (.prerequisite (migration_order - 1))⟩
    else
      match findOneByName ledger unit.name with
      | some _ => ⟨ledger, 0, none⟩
      | none =>
        match unit.migrateErr with
        | some e => ⟨ledger, 1, some (.operation e)⟩
        | none => ⟨ledger ++ [⟨unit.name, migration_order, true⟩], 1, none⟩

/-- Outcome of one `rollback_migration` call. -/
structure RollbackResult where
  ledger : Ledger
  revertCalls : Nat
  error : Option MigErr
deriving DecidableEq, Repr

/-- `MigrationManager.rollback_migration` (migrator.py lines 109-126), after
loading: awaits the unit's `rollback_migration(db)` unconditionally — no
ordering or already-applied check — then deletes the ledger document matching
the unit's name; on failure of the revert the deletion never runs. -/
def rollback_migration (ledger : Ledger) (unit : MigrationUnit) : RollbackResult :=
  match unit.revertErr with
  | some e => ⟨ledger, 1, some (.operation e)⟩
  | none => ⟨deleteOneByName ledger unit.name, 1, none⟩

/-- Python `s.endswith(suf)`, over code points. -/
def pyEndsWith (s suf : String) : Bool :=
  suf.toList.isSuffixOf s.toList

/-- Python `s.startswith(pre)`, over code points. -/
def pyStartsWith (s pre : String) : Bool :=
  pre.toList.isPrefixOf s.toList

/-- Python `s[:-3]`, over code points. -/
def pyDropLast3 (s : String) : String :=
  (s.toList.take (s.toList.length - 3)).asString

/-- The filter of `apply_all_migrations` (line 62): keep files ending in
`.py` and not starting with `__`. -/
def isCandidate (f : String) : Bool :=
  pyEndsWith f ".py" && !(pyStartsWith f "__")

/-- The sort key `int(x.split("_")[0])` (line 64), defaulted; only used on
files whose key parses. -/
def sortKey (f : String) : Int :=
  (orderKey f).getD 0

/-- The comparison `sorted` uses: keys compared with integer `≤`. -/
def sortLe (a b : String) : Prop :=
  sortKey a ≤ sortKey b

instance : DecidableRel sortLe := fun a b => Int.decLe (sortKey a) (sortKey b)

instance : IsTotal String sortLe := ⟨fun a b => Int.le_total (sortKey a) (sortKey b)⟩

instance : IsTrans String sortLe := ⟨fun _ _ _ h h' => Int.le_trans h h'⟩

/-- Lines 58-65: filter candidates and sort them by integer order.  Python's
`sorted` computes each key left to right before sorting, so the first
candidate whose key fails `int()` raises `ValueError`; otherwise the sort is
stable, and insertion sort — also stable — computes the same list. -/
def discoverSorted (files : List String) : Except MigErr (List String) :=
  let cands := files.filter isCandidate
  match cands.find? (fun f => (orderKey f).isNone) with
  | some f => .error (.valueError (beforeUnderscore f))
  | none => .ok (cands.insertionSort sortLe)

/-- Outcome of `apply_all_migrations`: ledger afterwards, the migration files
actually attempted (loaded and passed to `apply_migration`) in order, and the
exception raised, if any. -/
structure RunResult where
  ledger : Ledger
  attempted : List String
  error : Option MigErr
deriving DecidableEq, Repr

/-- The `for filename in migration_files` loop (lines 67-70): each file is
loaded and applied in turn; an exception aborts the loop at once. -/
def applyLoop (loader : String → MigrationUnit) :
    List String → Ledger → List String → RunResult
  | [], led, tr => ⟨led, tr, none⟩
  | f :: rest, led, tr =>
    let r := apply_migration led (pyDropLast3 f) (loader f)
    match r.error with
    | some e => ⟨r.ledger, tr ++ [f], some e⟩
    | none => applyLoop loader rest r.ledger (tr ++ [f])

/-- Lines 55-65 as one step: the `os.path.exists` check (raising
`FileNotFoundError` before any listing) followed by the filter-and-sort.
`dirFound` is `os.path.exists` on the migrations path; `files` is
`os.listdir`. -/
def discoverMigrations (dirFound : Bool) (files : List String) :
    Except MigErr (List String) :=
  if !dirFound then .error (.fileNotFound "migrations")
  else discoverSorted files

/-- `MigrationManager.apply_all_migrations` (lines 42-70).  `loader`
abstracts the `importlib` loading of a filename into a unit. -/
def apply_all_migrations (dirFound : Bool) (files : List String)
    (loader : String → MigrationUnit) (ledger : Ledger) : RunResult :=
  match discoverMigrations dirFound files with
  | .error e => ⟨ledger, [], some e⟩
  | .ok sortedFiles => applyLoop loader sortedFiles ledger []

/-- One manager call, for reasoning about reachable ledger states. -/
inductive MigOp where
  | applyOp (migration_module_name : String) (unit : MigrationUnit)
  | rollbackOp (unit : MigrationUnit)

/-- Run a sequence of manager calls, threading the ledger; a failed call
leaves the ledger as the call left it (no rollback of ledger state). -/
def runOps : List MigOp → Ledger → Ledger
  | [], led => led
  | .applyOp m u :: rest, led => runOps rest (apply_migration led m u).ledger
  | .rollbackOp u :: rest, led => runOps rest (rollback_migration led u).ledger

/-! ### Helper lemmas -/

/-- The guard of lines 91-99 does not fire when the order is at most 1 or the
predecessor record is present. -/
theorem prereqPass {ledger : Ledger} {n : Int}
    (hpre : n ≤ 1 ∨ (findOneByOrder ledger (n - 1)).isSome) :
    ¬(1 < n ∧ (findOneByOrder ledger (n - 1)).isNone = true) := by
  rintro ⟨h1, h2⟩
  rcases hpre with h | h
  · exact absurd h1 (not_lt.mpr h)
  · rw [Option.isNone_iff_eq_none] at h2
    rw [h2] at h
    exact Bool.noConfusion h

/-- Erasing the first match from a list split at its first match. -/
theorem erasePSplit {p : LedgerRecord → Bool} :
    ∀ (l₁ : List LedgerRecord) (r : LedgerRecord) (l₂ : List LedgerRecord),
      (∀ x ∈ l₁, ¬(p x = true)) → p r = true →
      (l₁ ++ r :: l₂).eraseP p = l₁ ++ l₂
  | [], r, l₂, _, hr => by simp [List.eraseP_cons_of_pos hr]
  | x :: l₁, r, l₂, hl, hr => by
    have hx : ¬(p x = true) := hl x (List.mem_cons_self x l₁)
    simp only [List.cons_append, List.eraseP_cons_of_neg hx]
    rw [erasePSplit l₁ r l₂ (fun y hy => hl y (List.mem_cons_of_mem x hy)) hr]

/-! ### C2 -/

/-- C2: for a unit with order `n > 1` and a ledger with no record of order
`n - 1`, `apply_migration` raises the prerequisite error, never awaits the
unit's `migrate`, and leaves the ledger unchanged. -/
theorem apply_migration_missing_predecessor (ledger : Ledger)
    (migration_module_name : String) (unit : MigrationUnit) (n : Int)
    (horder : orderKey migration_module_name = some n) (hgt : 1 < n)
    (hprev : findOneByOrder ledger (n - 1) = none) :
    apply_migration ledger migration_module_name unit
      = ⟨ledger, 0, some (.prerequisite (n - 1))⟩ := by
  unfold apply_migration
  simp only [horder]
  rw [if_pos ⟨hgt, by rw [hprev]; rfl⟩]

/-- Witness for C2 at the spec's scenario: `0002_b` on an empty ledger. -/
theorem apply_migration_missing_predecessor_witness :
    apply_migration [] "0002_b" ⟨"Migration", none, none⟩
      = ⟨[], 0, some (.prerequisite 1)⟩ := by
  have h := apply_migration_missing_predecessor [] "0002_b"
    ⟨"Migration", none, none⟩ 2 (by decide) (by decide) rfl
  norm_num at h
  exact h

/-! ### C3 -/

/-- C3 counterexample: the ledger holds a record named exactly like the unit
(already applied), yet `apply_migration` raises `PrerequisiteError` instead of
returning successfully, because the predecessor check at lines 91-99 runs
first and order 1 is absent (reachable by apply 1, apply 2, rollback 1). -/
theorem apply_migration_applied_not_noop :
    findOneByName [⟨"Migration", 2, true⟩] "Migration"
        = some ⟨"Migration", 2, true⟩
    ∧ (apply_migration [⟨"Migration", 2, true⟩] "0002_b"
        ⟨"Migration", none, none⟩).error = some (.prerequisite 1) := by
  exact ⟨rfl, rfl⟩

/-- C3 amended: when additionally the predecessor gate passes (order ≤ 1 or a
record of order `n - 1` exists), a ledger record matching the unit's name
makes `apply_migration` return successfully without awaiting `migrate` and
without touching the ledger. -/
theorem apply_migration_applied_noop (ledger : Ledger)
    (migration_module_name : String) (unit : MigrationUnit) (n : Int)
    (horder : orderKey migration_module_name = some n)
    (hpre : n ≤ 1 ∨ (findOneByOrder ledger (n - 1)).isSome)
    (hname : (findOneByName ledger unit.name).isSome) :
    apply_migration ledger migration_module_name unit = ⟨ledger, 0, none⟩ := by
  unfold apply_migration
  simp only [horder]
  rw [if_neg (prereqPass hpre)]
  obtain ⟨r, hr⟩ := Option.isSome_iff_exists.mp hname
  simp only [hr]

/-- Witness for C3 (amended) at order 1 already applied. -/
theorem apply_migration_applied_noop_witness :
    apply_migration [⟨"Migration", 1, true⟩] "0001_example"
        ⟨"Migration", none, none⟩
      = ⟨[⟨"Migration", 1, true⟩], 0, none⟩ := by
  exact apply_migration_applied_noop [⟨"Migration", 1, true⟩] "0001_example"
    ⟨"Migration", none, none⟩ 1 (by decide) (Or.inl le_rfl) (by decide)

/-! ### C4 -/

/-- C4: when the unit's `migrate` raises, `apply_migration` propagates the
very same exception, the ledger gains no record, and `migrate` was awaited
exactly once. -/
theorem apply_migration_failure_no_insert (ledger : Ledger)
    (migration_module_name : String) (unit : MigrationUnit) (n : Int)
    (e : String)
    (horder : orderKey migration_module_name = some n)
    (hpre : n ≤ 1 ∨ (findOneByOrder ledger (n - 1)).isSome)
    (hname : findOneByName ledger unit.name = none)
    (hfail : unit.migrateErr = some e) :
    apply_migration ledger migration_module_name unit
      = ⟨ledger, 1, some (.operation e)⟩ := by
  unfold apply_migration
  simp only [horder]
  rw [if_neg (prereqPass hpre)]
  simp only [hname, hfail]

/-- Witness for C4: a first migration whose `migrate` raises `"boom"`. -/
theorem apply_migration_failure_no_insert_witness :
    apply_migration [] "0001_example" ⟨"Migration", some "boom", none⟩
      = ⟨[], 1, some (.operation "boom")⟩ := by
  exact apply_migration_failure_no_insert [] "0001_example"
    ⟨"Migration", some "boom", none⟩ 1 "boom" (by decide) (Or.inl le_rfl) rfl rfl

/-! ### C5 -/

/-- C5: when the unit's `rollback_migration` raises, the manager propagates
the very same exception and the ledger document is not deleted: the ledger is
exactly as before the call. -/
theorem rollback_migration_failure_keeps_record (ledger : Ledger)
    (unit : MigrationUnit) (e : String) (hfail : unit.revertErr = some e) :
    rollback_migration ledger unit = ⟨ledger, 1, some (.operation e)⟩ := by
  unfold rollback_migration
  simp only [hfail]

/-- Witness for C5: a failing revert of an applied migration. -/
theorem rollback_migration_failure_keeps_record_witness :
    rollback_migration [⟨"Migration", 1, true⟩] ⟨"Migration", none, some "boom"⟩
      = ⟨[⟨"Migration", 1, true⟩], 1, some (.operation "boom")⟩ :=
  rollback_migration_failure_keeps_record [⟨"Migration", 1, true⟩]
    ⟨"Migration", none, some "boom"⟩ "boom" rfl

/-! ### C6 -/

/-- C6: `rollback_migration` awaits the unit's revert exactly once on every
ledger and unit — no ordering or already-applied gate; it raises only when the
revert raises; on success with no matching record the ledger is unchanged (no
error), and on success with a matching record exactly that one first matching
record is removed and nothing else changes. -/
theorem rollback_migration_spec (ledger : Ledger) (unit : MigrationUnit) :
    (rollback_migration ledger unit).revertCalls = 1
    ∧ ((rollback_migration ledger unit).error = none ↔ unit.revertErr = none)
    ∧ (unit.revertErr = none →
        (findOneByName ledger unit.name = none →
          (rollback_migration ledger unit).ledger = ledger)
        ∧ (∀ r, findOneByName ledger unit.name = some r →
            ∃ l₁ l₂, ledger = l₁ ++ r :: l₂ ∧ r.name = unit.name
              ∧ (rollback_migration ledger unit).ledger = l₁ ++ l₂)) := by
  refine ⟨?_, ?_, ?_⟩
  · unfold rollback_migration
    cases h : unit.revertErr <;> simp
  · unfold rollback_migration
    cases h : unit.revertErr <;> simp
  · intro hok
    unfold rollback_migration
    simp only [hok]
    constructor
    · intro habsent
      have habs : ledger.find? (fun r => r.name = unit.name) = none := habsent
      unfold deleteOneByName
      apply List.eraseP_of_forall_not
      intro a ha
      have := (List.find?_eq_none.mp habs) a ha
      simpa using this
    · intro r hfind
      have hfind' : ledger.find? (fun r => r.name = unit.name) = some r := hfind
      obtain ⟨hp, l₁, l₂, hsplit, hfirst⟩ := List.find?_eq_some.mp hfind'
      refine ⟨l₁, l₂, hsplit, by simpa using hp, ?_⟩
      unfold deleteOneByName
      rw [hsplit]
      apply erasePSplit
      · intro x hx
        have := hfirst x hx
        simpa using this
      · exact hp

/-- Witness for C6: rolling back a never-applied migration on an empty ledger
leaves it empty, through the theorem's absent-record case. -/
theorem rollback_migration_spec_witness :
    (rollback_migration ([] : Ledger) ⟨"Migration", none, none⟩).ledger = [] :=
  ((rollback_migration_spec [] ⟨"Migration", none, none⟩).2.2 rfl).1 rfl

/-! ### C9 -/

/-- Each name occurs in at most one ledger document. -/
def namesUnique (l : Ledger) : Prop :=
  (l.map LedgerRecord.name).Nodup

/-- A name the by-name lookup misses is absent from the name column. -/
theorem not_mem_names_of_find_none {l : Ledger} {n : String}
    (h : findOneByName l n = none) : n ∉ l.map LedgerRecord.name := by
  intro hmem
  obtain ⟨r, hr, hrn⟩ := List.mem_map.mp hmem
  have h' : l.find? (fun r => r.name = n) = none := h
  have := (List.find?_eq_none.mp h') r hr
  simp [hrn] at this

/-- `apply_migration` either returns the ledger untouched or appends one
document whose name the ledger did not contain. -/
theorem apply_migration_ledger_shape (ledger : Ledger) (m : String)
    (u : MigrationUnit) :
    (apply_migration ledger m u).ledger = ledger
    ∨ (findOneByName ledger u.name = none
        ∧ ∃ n, (apply_migration ledger m u).ledger
            = ledger ++ [⟨u.name, n, true⟩]) := by
  unfold apply_migration
  split
  · exact Or.inl rfl
  · split
    · exact Or.inl rfl
    · split
      · exact Or.inl rfl
      · next hname =>
        split
        · exact Or.inl rfl
        · exact Or.inr ⟨hname, _, rfl⟩

/-- `apply_migration` preserves name uniqueness. -/
theorem namesUnique_apply (ledger : Ledger) (m : String) (u : MigrationUnit)
    (h : namesUnique ledger) : namesUnique (apply_migration ledger m u).ledger := by
  rcases apply_migration_ledger_shape ledger m u with heq | ⟨hname, n, heq⟩
  · rwa [heq]
  · rw [heq]
    unfold namesUnique at h ⊢
    rw [List.map_append]
    simp only [List.map_cons, List.map_nil]
    rw [List.nodup_append]
    refine ⟨h, List.nodup_singleton _, ?_⟩
    intro x hx hx'
    have : x = u.name := by simpa using hx'
    subst this
    exact not_mem_names_of_find_none hname hx

/-- `rollback_migration` preserves name uniqueness. -/
theorem namesUnique_rollback (ledger : Ledger) (u : MigrationUnit)
    (h : namesUnique ledger) : namesUnique (rollback_migration ledger u).ledger := by
  unfold rollback_migration
  cases hrv : u.revertErr with
  | some e => exact h
  | none =>
    show namesUnique (deleteOneByName ledger u.name)
    unfold namesUnique at h ⊢
    exact ((List.eraseP_sublist ledger).map LedgerRecord.name).nodup h

/-- C9: starting from the empty ledger, any sequence of manager calls keeps
every name in at most one document, and each single call preserves the
uniqueness invariant: apply inserts only when the name is absent, rollback
only deletes. -/
theorem ledger_names_unique (ops : List MigOp) (ledger : Ledger) :
    namesUnique (runOps ops [])
    ∧ (namesUnique ledger →
        ∀ m u, namesUnique (apply_migration ledger m u).ledger)
    ∧ (namesUnique ledger →
        ∀ u, namesUnique (rollback_migration ledger u).ledger) := by
  refine ⟨?_, fun h m u => namesUnique_apply ledger m u h,
    fun h u => namesUnique_rollback ledger u h⟩
  have main : ∀ (os : List MigOp) (led : Ledger), namesUnique led →
      namesUnique (runOps os led) := by
    intro os
    induction os with
    | nil => intro led h; exact h
    | cons op rest ih =>
      intro led h
      cases op with
      | applyOp m u => exact ih _ (namesUnique_apply led m u h)
      | rollbackOp u => exact ih _ (namesUnique_rollback led u h)
  exact main ops [] (by simp [namesUnique])

/-- Witness for C9: one applied migration has unique names, via the
preservation part of the theorem at the empty ledger. -/
theorem ledger_names_unique_witness :
    namesUnique (apply_migration [] "0001_example" ⟨"Migration", none, none⟩).ledger :=
  (ledger_names_unique [] []).2.1 (by simp [namesUnique]) "0001_example"
    ⟨"Migration", none, none⟩

/-! ### C10 -/

/-- C10: a candidate file (`.py`, not `__`-private) whose piece before the
first underscore is not an integer makes `apply_all_migrations` raise
`ValueError` out of the sort key, before any migration is loaded or applied:
nothing is attempted and the ledger is untouched.  The file blamed is the
first such candidate in listing order. -/
theorem apply_all_bad_filename_valueError (dirFound : Bool)
    (files : List String) (loader : String → MigrationUnit) (ledger : Ledger)
    (f : String) (hdir : dirFound = true) (hf : f ∈ files)
    (hcand : isCandidate f = true) (hbad : orderKey f = none) :
    ∃ g, g ∈ files ∧ isCandidate g = true ∧ orderKey g = none
      ∧ apply_all_migrations dirFound files loader ledger
          = ⟨ledger, [], some (.valueError (beforeUnderscore g))⟩ := by
  subst hdir
  have hmem : f ∈ files.filter isCandidate := List.mem_filter.mpr ⟨hf, hcand⟩
  have hsome : ((files.filter isCandidate).find?
      (fun f => (orderKey f).isNone)).isSome := by
    rw [List.find?_isSome]
    exact ⟨f, hmem, by rw [hbad]; rfl⟩
  obtain ⟨g, hg⟩ := Option.isSome_iff_exists.mp hsome
  have hgmem : g ∈ files.filter isCandidate := List.mem_of_find?_eq_some hg
  have hgbad : (orderKey g).isNone := by simpa using List.find?_some hg
  have hdisc : discoverMigrations true files
      = .error (.valueError (beforeUnderscore g)) := by
    unfold discoverMigrations discoverSorted
    simp only [Bool.not_true, hg]
    rfl
  refine ⟨g, (List.mem_filter.mp hgmem).1, (List.mem_filter.mp hgmem).2,
    Option.isNone_iff_eq_none.mp hgbad, ?_⟩
  unfold apply_all_migrations
  rw [hdisc]

/-- Witness for C10: a directory whose only file is `hello.py`. -/
theorem apply_all_bad_filename_valueError_witness :
    apply_all_migrations true ["hello.py"] (fun _ => ⟨"Migration", none, none⟩) []
      = ⟨[], [], some (.valueError "hello.py")⟩ := by
  obtain ⟨g, hg1, _, _, hg4⟩ := apply_all_bad_filename_valueError true
    ["hello.py"] (fun _ => ⟨"Migration", none, none⟩) [] "hello.py"
    rfl (by decide) (by decide) rfl
  have hgeq : g = "hello.py" := by simpa using hg1
  rw [hgeq] at hg4
  exact hg4

/-! ### C8 -/

/-- `apply_migration` either succeeds or leaves the ledger untouched. -/
theorem apply_migration_error_or (ledger : Ledger) (m : String)
    (u : MigrationUnit) :
    (apply_migration ledger m u).error = none
    ∨ (apply_migration ledger m u).ledger = ledger := by
  unfold apply_migration
  split
  · exact Or.inr rfl
  · split
    · exact Or.inr rfl
    · split
      · exact Or.inl rfl
      · split
        · exact Or.inr rfl
        · exact Or.inl rfl

/-- The `for` loop attempts an initial segment of its file list, all of it
when no exception occurs, and any exception is exactly the one raised by
`apply_migration` on the last file attempted. -/
theorem applyLoop_stops (loader : String → MigrationUnit) :
    ∀ (fs : List String) (led : Ledger) (tr : List String),
      ∃ k, k ≤ fs.length
        ∧ (applyLoop loader fs led tr).attempted = tr ++ fs.take k
        ∧ ((applyLoop loader fs led tr).error = none → k = fs.length)
        ∧ (∀ e, (applyLoop loader fs led tr).error = some e →
            ∃ g c, (applyLoop loader fs led tr).attempted.getLast? = some g
              ∧ apply_migration (applyLoop loader fs led tr).ledger
                  (pyDropLast3 g) (loader g)
                = ⟨(applyLoop loader fs led tr).ledger, c, some e⟩) := by
  intro fs
  induction fs with
  | nil =>
    intro led tr
    exact ⟨0, Nat.le_refl 0, by simp [applyLoop], fun _ => rfl,
      fun e he => by simp [applyLoop] at he⟩
  | cons f rest ih =>
    intro led tr
    rcases hr : apply_migration led (pyDropLast3 f) (loader f) with ⟨led', c, err⟩
    cases err with
    | some e =>
      have hunch : led' = led := by
        rcases apply_migration_error_or led (pyDropLast3 f) (loader f) with h1 | h2
        · rw [hr] at h1
          exact absurd h1 (by simp)
        · rw [hr] at h2
          exact h2
      subst hunch
      refine ⟨1, by simp, ?_, ?_, ?_⟩
      · simp [applyLoop, hr]
      · intro h
        simp [applyLoop, hr] at h
      · intro e' he'
        simp only [applyLoop, hr] at he' ⊢
        obtain rfl : e = e' := by simpa using he'
        exact ⟨f, c, by simp, by rw [hr]⟩
    | none =>
      obtain ⟨k, hk, hatt, herrnone, herrsome⟩ := ih led' (tr ++ [f])
      refine ⟨k + 1, by simpa using Nat.succ_le_succ hk, ?_, ?_, ?_⟩
      · simp only [applyLoop, hr]
        rw [hatt, List.take_succ_cons]
        simp
      · intro h
        simp only [applyLoop, hr] at h
        have := herrnone h
        simp [this]
      · intro e he
        simp only [applyLoop, hr] at he ⊢
        exact herrsome e he

/-- C8: whenever discovery succeeds with the sorted list `s`,
`apply_all_migrations` attempts an initial segment of `s` — so after a failing
position nothing further is ever loaded or applied — it attempts all of `s`
exactly when no error occurs, and a raised error is exactly the one
`apply_migration` produced on the last file attempted. -/
theorem apply_all_stops_on_first_failure (dirFound : Bool)
    (files : List String) (loader : String → MigrationUnit) (ledger : Ledger)
    (s : List String) (hdisc : discoverMigrations dirFound files = .ok s) :
    ∃ k, k ≤ s.length
      ∧ (apply_all_migrations dirFound files loader ledger).attempted = s.take k
      ∧ ((apply_all_migrations dirFound files loader ledger).error = none →
          k = s.length)
      ∧ (∀ e, (apply_all_migrations dirFound files loader ledger).error = some e →
          ∃ g c,
            (apply_all_migrations dirFound files loader ledger).attempted.getLast?
              = some g
            ∧ apply_migration
                (apply_all_migrations dirFound files loader ledger).ledger
                (pyDropLast3 g) (loader g)
              = ⟨(apply_all_migrations dirFound files loader ledger).ledger, c,
                  some e⟩) := by
  have hrun : apply_all_migrations dirFound files loader ledger
      = applyLoop loader s ledger [] := by
    unfold apply_all_migrations
    rw [hdisc]
  rw [hrun]
  obtain ⟨k, hk, hatt, h1, h2⟩ := applyLoop_stops loader s ledger []
  exact ⟨k, hk, by simpa using hatt, h1, h2⟩

/-- Witness for C8 on the spec's three-file scenario with all applies
succeeding: every file is attempted, in sorted order. -/
theorem apply_all_stops_on_first_failure_witness :
    (apply_all_migrations true ["0002_b.py", "0001_a.py", "0003_c.py"]
        (fun f => ⟨f, none, none⟩) []).attempted
      = ["0001_a.py", "0002_b.py", "0003_c.py"] := by
  obtain ⟨k, hk, hatt, herrnone, _⟩ := apply_all_stops_on_first_failure true
    ["0002_b.py", "0001_a.py", "0003_c.py"] (fun f => ⟨f, none, none⟩) []
    ["0001_a.py", "0002_b.py", "0003_c.py"] (by rfl)
  have hkeq : k = 3 := herrnone (by decide)
  subst hkeq
  rw [hatt]
  rfl

/-! ### C7 -/

/-- C7 counterexample: a directory holding `0001_a.py` and `readme.py`.
`readme.py` does not match the numeric-order naming convention, so the claim
expects discovery to return exactly `["0001_a.py"]`; the code instead raises
`ValueError` out of the sort key, because its filter keeps every `.py` file
regardless of whether its piece before the first underscore is numeric. -/
theorem discoverMigrations_readme_not_filtered :
    discoverMigrations true ["0001_a.py", "readme.py"]
        = .error (.valueError "readme.py")
    ∧ discoverMigrations true ["0001_a.py", "readme.py"]
        ≠ .ok ["0001_a.py"] := by
  constructor
  · rfl
  · intro h
    have h' : (Except.error (MigErr.valueError "readme.py")
          : Except MigErr (List String))
        = Except.ok ["0001_a.py"] :=
      Eq.trans (Eq.symm rfl) h
    exact Except.noConfusion h'

/-- C7 amended: a missing directory raises `NotFound` without reading any
file listing; when the directory exists and every candidate (`.py`, not
`__`-private) parses to an integer order, discovery returns exactly the
candidates — a permutation of the filtered listing, with the same membership —
sorted ascending by the parsed integer key. -/
theorem discoverMigrations_spec (dirFound : Bool) (files : List String) :
    (dirFound = false →
      (∀ files₂, discoverMigrations dirFound files
          = discoverMigrations dirFound files₂)
      ∧ discoverMigrations dirFound files = .error (.fileNotFound "migrations"))
    ∧ ((∀ f ∈ files.filter isCandidate, (orderKey f).isSome) → dirFound = true →
        discoverMigrations dirFound files
            = .ok ((files.filter isCandidate).insertionSort sortLe)
        ∧ List.Perm ((files.filter isCandidate).insertionSort sortLe)
            (files.filter isCandidate)
        ∧ ((files.filter isCandidate).insertionSort sortLe).Sorted sortLe
        ∧ (∀ f, f ∈ (files.filter isCandidate).insertionSort sortLe
            ↔ (isCandidate f = true ∧ f ∈ files))) := by
  constructor
  · rintro rfl
    exact ⟨fun _ => rfl, rfl⟩
  · rintro hparse rfl
    have hfind : (files.filter isCandidate).find?
        (fun f => (orderKey f).isNone) = none := by
      rw [List.find?_eq_none]
      intro f hf
      have := hparse f hf
      simp only [Option.isNone_iff_eq_none]
      intro hcon
      rw [hcon] at this
      exact Bool.noConfusion this
    refine ⟨?_, List.perm_insertionSort sortLe _, List.sorted_insertionSort sortLe _, ?_⟩
    · unfold discoverMigrations discoverSorted
      simp only [Bool.not_true, hfind]
      rfl
    · intro f
      rw [List.mem_insertionSort, List.mem_filter]
      exact ⟨fun ⟨h1, h2⟩ => ⟨h2, h1⟩, fun ⟨h1, h2⟩ => ⟨h2, h1⟩⟩

/-- Witness for C7: the sorted discovery of a concrete listing is a
permutation of its filtered candidates, via the theorem's success case. -/
theorem discoverMigrations_spec_witness :
    List.Perm
      ((["0002_b.py", "0001_a.py", "__init__.py"].filter isCandidate).insertionSort
        sortLe)
      (["0002_b.py", "0001_a.py", "__init__.py"].filter isCandidate) :=
  (((discoverMigrations_spec true
      ["0002_b.py", "0001_a.py", "__init__.py"]).2 (by decide) rfl).2).1

/-! ### C1 -/

/-- The integer orders `a, a+1, ..., a+n-1`. -/
def intRange (a : Int) (n : Nat) : List Int :=
  (List.range n).map (fun (i : Nat) => a + (i : Int))

theorem intRange_succ_cons (a : Int) (n : Nat) :
    intRange a (n + 1) = a :: intRange (a + 1) n := by
  unfold intRange
  rw [List.range_succ_eq_map]
  rw [List.map_cons, List.map_map]
  congr 1
  · simp
  · apply List.map_congr_left
    intro i _
    simp only [Function.comp_apply]
    push_cast
    ring

theorem intRange_succ_concat (a : Int) (n : Nat) :
    intRange a (n + 1) = intRange a n ++ [a + n] := by
  unfold intRange
  rw [List.range_succ]
  simp

theorem mem_intRange_self (k : Nat) (hk : 1 ≤ k) :
    ((k : Int)) ∈ intRange 1 k := by
  unfold intRange
  rw [List.mem_map]
  refine ⟨k - 1, List.mem_range.mpr (by omega), ?_⟩
  show (1 : Int) + ((k - 1 : Nat) : Int) = (k : Int)
  omega

/-- A string containing a character that is neither a digit nor a sign fails
Python's `int()`. -/
theorem pyInt_eq_none {s : String} {c : Char} (hc : c ∈ s.toList)
    (hd : c.isDigit = false) (hm : c ≠ '-') (hp : c ≠ '+') :
    pyInt s = none := by
  unfold pyInt
  split
  · next rest heq =>
    rw [heq] at hc
    rcases List.mem_cons.mp hc with rfl | hc'
    · exact absurd rfl hm
    · rw [if_neg]
      rintro ⟨-, h2⟩
      rw [List.all_eq_true] at h2
      rw [h2 c hc'] at hd
      exact Bool.noConfusion hd
  · next rest heq =>
    rw [heq] at hc
    rcases List.mem_cons.mp hc with rfl | hc'
    · exact absurd rfl hp
    · rw [if_neg]
      rintro ⟨-, h2⟩
      rw [List.all_eq_true] at h2
      rw [h2 c hc'] at hd
      exact Bool.noConfusion hd
  · rw [if_neg]
    rintro ⟨-, h2⟩
    rw [List.all_eq_true] at h2
    rw [h2 c hc] at hd
    exact Bool.noConfusion hd

/-- `takeWhile` never looks past the first failing element, so anything
appended after one is invisible. -/
theorem takeWhileAppend {p : Char → Bool} :
    ∀ (l₁ l₂ : List Char), (∃ x ∈ l₁, ¬p x = true) →
      (l₁ ++ l₂).takeWhile p = l₁.takeWhile p
  | [], _, h => absurd h (by simp)
  | a :: l₁, l₂, h => by
    by_cases hpa : p a = true
    · rw [List.cons_append, List.takeWhile_cons, List.takeWhile_cons, hpa]
      simp only [if_true]
      rw [takeWhileAppend l₁ l₂ ?ex]
      case ex =>
        rcases h with ⟨x, hx, hnp⟩
        rcases List.mem_cons.mp hx with rfl | hx'
        · exact absurd hpa hnp
        · exact ⟨x, hx', hnp⟩
    · rw [List.cons_append, List.takeWhile_cons, List.takeWhile_cons]
      rw [Bool.eq_false_iff.mpr hpa]
      simp

/-- For a candidate filename whose order parses, stripping the trailing
`.py` (as `filename[:-3]` does before `apply_migration` re-parses) yields the
same integer order: the piece before the first underscore is unaffected. -/
theorem orderKey_pyDropLast3 {f : String} (hc : isCandidate f = true)
    {n : Int} (hk : orderKey f = some n) :
    orderKey (pyDropLast3 f) = some n := by
  have hsuf : ['.', 'p', 'y'] <:+ f.toList := by
    have h1 : pyEndsWith f ".py" = true := by
      unfold isCandidate at hc
      exact (Bool.and_eq_true_iff.mp hc).1
    unfold pyEndsWith at h1
    exact List.isSuffixOf_iff_suffix.mp h1
  obtain ⟨pre, hpre⟩ := hsuf
  have hdrop : (pyDropLast3 f).toList = pre := by
    unfold pyDropLast3
    rw [← hpre]
    have hlen : (pre ++ ['.', 'p', 'y']).length - 3 = pre.length := by simp
    rw [hlen]
    rw [List.take_left' rfl]
    rfl
  by_cases hu : '_' ∈ pre
  · have htw : f.toList.takeWhile (fun c => c ≠ '_')
        = pre.takeWhile (fun c => c ≠ '_') := by
      rw [← hpre]
      apply takeWhileAppend
      exact ⟨'_', hu, by simp⟩
    unfold orderKey beforeUnderscore at hk ⊢
    rw [hdrop]
    rw [htw] at hk
    exact hk
  · exfalso
    have hnu : '_' ∉ f.toList := by
      rw [← hpre]
      intro hmem
      rcases List.mem_append.mp hmem with h | h
      · exact hu h
      · simp at h
    have htw : f.toList.takeWhile (fun c => c ≠ '_') = f.toList := by
      rw [List.takeWhile_eq_self_iff]
      intro x hx
      by_cases hxe : x = '_'
      · exact absurd (hxe ▸ hx) hnu
      · simp [hxe]
    unfold orderKey beforeUnderscore at hk
    rw [htw] at hk
    have hy : 'y' ∈ (f.toList.asString).toList := by
      show 'y' ∈ f.toList
      rw [← hpre]
      simp
    rw [pyInt_eq_none hy (by decide) (by decide) (by decide)] at hk
    exact Option.noConfusion hk

/-- When the ledger holds exactly the orders `1..L` and the files still to
process carry orders `L+1, L+2, ...` in sequence, with fresh pairwise-distinct
names and succeeding applies, the loop applies every file in turn, appending
one record per file. -/
theorem applyLoop_all_fresh (loader : String → MigrationUnit) :
    ∀ (fs : List String) (led : Ledger) (tr : List String),
      led.map LedgerRecord.order = intRange 1 led.length →
      fs.map sortKey = intRange ((led.length : Int) + 1) fs.length →
      (∀ f ∈ fs, orderKey (pyDropLast3 f) = some (sortKey f)) →
      (∀ f ∈ fs, (loader f).name ∉ led.map LedgerRecord.name) →
      (fs.map (fun f => (loader f).name)).Nodup →
      (∀ f ∈ fs, (loader f).migrateErr = none) →
      applyLoop loader fs led tr
        = ⟨led ++ fs.map (fun f => ⟨(loader f).name, sortKey f, true⟩),
           tr ++ fs, none⟩ := by
  intro fs
  induction fs with
  | nil =>
    intro led tr _ _ _ _ _ _
    simp [applyLoop]
  | cons f rest ih =>
    intro led tr hled hkeys hparse hfresh hnodup hok
    have hmemf : f ∈ f :: rest := List.mem_cons_self f rest
    rw [List.map_cons, List.length_cons, intRange_succ_cons] at hkeys
    have hkey_f : sortKey f = (led.length : Int) + 1 :=
      (List.cons_eq_cons.mp hkeys).1
    have hkeys_rest : rest.map sortKey
        = intRange ((led.length : Int) + 1 + 1) rest.length :=
      (List.cons_eq_cons.mp hkeys).2
    have hgate : ¬(sortKey f > 1
        ∧ (findOneByOrder led (sortKey f - 1)).isNone = true) := by
      rintro ⟨h1, h2⟩
      rw [hkey_f] at h1 h2
      have hL : 1 ≤ led.length := by
        by_contra hL0
        have h0 : led.length = 0 := by omega
        rw [h0] at h1
        norm_num at h1
      have hmem : ((led.length : Int)) ∈ led.map LedgerRecord.order := by
        rw [hled]
        exact mem_intRange_self _ hL
      obtain ⟨r, hr, hro⟩ := List.mem_map.mp hmem
      have hsub : (led.length : Int) + 1 - 1 = (led.length : Int) := by ring
      rw [hsub, Option.isNone_iff_eq_none, findOneByOrder,
        List.find?_eq_none] at h2
      have hcon := h2 r hr
      simp only [decide_eq_true_eq] at hcon
      exact hcon hro
    have hnamef : findOneByName led (loader f).name = none := by
      rw [findOneByName, List.find?_eq_none]
      intro r hr
      simp only [decide_eq_true_eq]
      intro hcon
      exact hfresh f hmemf (List.mem_map.mpr ⟨r, hr, hcon⟩)
    have happly : apply_migration led (pyDropLast3 f) (loader f)
        = ⟨led ++ [⟨(loader f).name, sortKey f, true⟩], 1, none⟩ := by
      unfold apply_migration
      simp only [hparse f hmemf, hnamef, hok f hmemf]
      rw [if_neg hgate]
    have hlen' : (led ++ [(⟨(loader f).name, sortKey f, true⟩ : LedgerRecord)]).length
        = led.length + 1 := by simp
    have h1 : (led ++ [(⟨(loader f).name, sortKey f, true⟩ : LedgerRecord)]).map
        LedgerRecord.order
        = intRange 1 (led ++ [(⟨(loader f).name, sortKey f, true⟩ : LedgerRecord)]).length := by
      have hkf : sortKey f = 1 + (led.length : Int) := by rw [hkey_f]; ring
      rw [List.map_append, hled, hlen', intRange_succ_concat]
      simp [hkf]
    have h2 : rest.map sortKey
        = intRange (((led ++ [(⟨(loader f).name, sortKey f, true⟩ : LedgerRecord)]).length : Int) + 1)
            rest.length := by
      have hcast : (((led.length + 1 : Nat)) : Int) + 1
          = (led.length : Int) + 1 + 1 := by push_cast; ring
      rw [hlen', hcast]
      exact hkeys_rest
    have h3 : ∀ g ∈ rest, orderKey (pyDropLast3 g) = some (sortKey g) :=
      fun g hg => hparse g (List.mem_cons_of_mem f hg)
    have h4 : ∀ g ∈ rest, (loader g).name
        ∉ (led ++ [(⟨(loader f).name, sortKey f, true⟩ : LedgerRecord)]).map
            LedgerRecord.name := by
      intro g hg
      rw [List.map_append]
      intro hmem
      rcases List.mem_append.mp hmem with h | h
      · exact hfresh g (List.mem_cons_of_mem f hg) h
      · have heq : (loader g).name = (loader f).name := by simpa using h
        rw [List.map_cons, List.nodup_cons] at hnodup
        exact hnodup.1 (List.mem_map.mpr ⟨g, hg, heq⟩)
    have h5 : (rest.map (fun f => (loader f).name)).Nodup := by
      rw [List.map_cons, List.nodup_cons] at hnodup
      exact hnodup.2
    have h6 : ∀ g ∈ rest, (loader g).migrateErr = none :=
      fun g hg => hok g (List.mem_cons_of_mem f hg)
    simp only [applyLoop, happly]
    rw [ih (led ++ [(⟨(loader f).name, sortKey f, true⟩ : LedgerRecord)])
      (tr ++ [f]) h1 h2 h3 h4 h5 h6]
    simp

/-- When every candidate's order parses, discovery succeeds with the sorted
candidate list. -/
theorem discoverMigrations_ok_of_parse {files : List String}
    (hparse : ∀ f ∈ files.filter isCandidate, (orderKey f).isSome) :
    discoverMigrations true files
      = .ok ((files.filter isCandidate).insertionSort sortLe) := by
  have hfind : (files.filter isCandidate).find?
      (fun f => (orderKey f).isNone) = none := by
    rw [List.find?_eq_none]
    intro f hf
    have hsome := hparse f hf
    intro hcon
    rw [Option.isNone_iff_eq_none] at hcon
    rw [hcon] at hsome
    exact Bool.noConfusion hsome
  unfold discoverMigrations discoverSorted
  simp only [Bool.not_true, hfind]
  rfl

/-- C1 counterexample: orders `{1, 2}`, no gaps, both applies succeed — but
both files load a class named `Migration` (the convention the repository's
own example file uses), so the run succeeds while inserting only ONE ledger
record, not two: the second unit is mistaken for already-applied. -/
theorem apply_all_shared_class_name_loses_records :
    (apply_all_migrations true ["0001_a.py", "0002_b.py"]
        (fun _ => ⟨"Migration", none, none⟩) []).error = none
    ∧ (apply_all_migrations true ["0001_a.py", "0002_b.py"]
        (fun _ => ⟨"Migration", none, none⟩) []).ledger
      = [⟨"Migration", 1, true⟩]
    ∧ (apply_all_migrations true ["0001_a.py", "0002_b.py"]
        (fun _ => ⟨"Migration", none, none⟩) []).ledger.length ≠ 2 := by
  refine ⟨rfl, by decide, by decide⟩

/-- C1 amended: for a migration set whose candidates' orders are exactly
`{1..N}` (no gaps, `N ≥ 1`), whose loaded class names are pairwise distinct,
and whose applies all succeed, `apply_all_migrations` from the empty ledger
raises nothing, attempts the files in strictly ascending order of their
integer keys (`1..N`), and produces exactly `N` ledger records, one per
migration, with orders `1..N` and the units' names. -/
theorem apply_all_contiguous_success (files : List String)
    (loader : String → MigrationUnit) (N : Nat) (_hN : 1 ≤ N)
    (hkeysPerm : List.Perm ((files.filter isCandidate).map sortKey)
      (intRange 1 N))
    (hparseAll : ∀ f ∈ files.filter isCandidate, (orderKey f).isSome)
    (hnames : ((files.filter isCandidate).map
      (fun f => (loader f).name)).Nodup)
    (hok : ∀ f ∈ files.filter isCandidate, (loader f).migrateErr = none) :
    (apply_all_migrations true files loader []).error = none
    ∧ (apply_all_migrations true files loader []).attempted
        = (files.filter isCandidate).insertionSort sortLe
    ∧ ((files.filter isCandidate).insertionSort sortLe).map sortKey
        = intRange 1 N
    ∧ (apply_all_migrations true files loader []).ledger.map LedgerRecord.order
        = intRange 1 N
    ∧ (apply_all_migrations true files loader []).ledger.length = N
    ∧ (apply_all_migrations true files loader []).ledger.map LedgerRecord.name
        = ((files.filter isCandidate).insertionSort sortLe).map
            (fun f => (loader f).name) := by
  have hperm_s : List.Perm ((files.filter isCandidate).insertionSort sortLe)
      (files.filter isCandidate) := List.perm_insertionSort sortLe _
  have hmap_perm : List.Perm
      (((files.filter isCandidate).insertionSort sortLe).map sortKey)
      (intRange 1 N) := (hperm_s.map sortKey).trans hkeysPerm
  have hsorted_s : (((files.filter isCandidate).insertionSort sortLe).map
      sortKey).Pairwise (· ≤ ·) := by
    have hs := List.sorted_insertionSort sortLe (files.filter isCandidate)
    exact List.pairwise_map.mpr hs
  have hint_sorted : (intRange 1 N).Pairwise (· ≤ ·) := by
    unfold intRange
    apply List.pairwise_map.mpr
    exact (List.pairwise_lt_range N).imp (fun h => by omega)
  have hskeys : ((files.filter isCandidate).insertionSort sortLe).map sortKey
      = intRange 1 N :=
    List.eq_of_perm_of_sorted hmap_perm hsorted_s hint_sorted
  have hlen_s : ((files.filter isCandidate).insertionSort sortLe).length
      = N := by
    have hcong := congrArg List.length hskeys
    simpa [intRange] using hcong
  have hdisc := discoverMigrations_ok_of_parse hparseAll
  have hrun : apply_all_migrations true files loader []
      = applyLoop loader
          ((files.filter isCandidate).insertionSort sortLe) [] [] := by
    unfold apply_all_migrations
    rw [hdisc]
  have hparse2 : ∀ f ∈ (files.filter isCandidate).insertionSort sortLe,
      orderKey (pyDropLast3 f) = some (sortKey f) := by
    intro f hf
    have hfc : f ∈ files.filter isCandidate := (List.mem_insertionSort sortLe).mp hf
    have hcand : isCandidate f = true := (List.mem_filter.mp hfc).2
    obtain ⟨n, hn⟩ := Option.isSome_iff_exists.mp (hparseAll f hfc)
    have hkey : sortKey f = n := by rw [sortKey, hn]; rfl
    rw [hkey]
    exact orderKey_pyDropLast3 hcand hn
  have hloop := applyLoop_all_fresh loader
    ((files.filter isCandidate).insertionSort sortLe) [] []
    (by simp [intRange])
    (by simpa [hlen_s] using hskeys)
    hparse2
    (by intro g hg; simp)
    ((hperm_s.map (fun f => (loader f).name)).nodup_iff.mpr hnames)
    (fun g hg => hok g ((List.mem_insertionSort sortLe).mp hg))
  rw [hrun, hloop]
  refine ⟨rfl, by simp, hskeys, ?_, ?_, ?_⟩
  · simp only [List.nil_append, List.map_map]
    exact hskeys
  · simp [hlen_s]
  · simp only [List.nil_append, List.map_map]
    rfl

/-- Witness for C1 (amended): two files with distinct loaded names, orders
`{1, 2}`, listed out of order; the run writes records with orders `1, 2`. -/
theorem apply_all_contiguous_success_witness :
    (apply_all_migrations true ["0002_b.py", "0001_a.py"]
        (fun f => ⟨f, none, none⟩) []).ledger.map LedgerRecord.order
      = intRange 1 2 :=
  (apply_all_contiguous_success ["0002_b.py", "0001_a.py"]
    (fun f => ⟨f, none, none⟩) 2 (by decide) (by decide) (by decide)
    (by decide) (by decide)).2.2.2.1
